import Mathlib

/-!
Shallow embedding of `src/recycle-ecs-instances.py`.

The script is a single-threaded orchestrator that recycles every container
instance of an ECS cluster backed by an auto scaling group (ASG).  All of its
observable behaviour is a sequence of remote AWS calls; we embed each run as a
trace of `Event`s produced from an `Env` (the oracle of remote responses: the
ASG description, the initial instance listing, the successive poll results of
the two busy-wait loops, the EC2 instance id of each container instance, and
fault-injection points modelling a remote call that raises).  A run either
completes (`RunResult.ok trace`, the non-exceptional path through line 147),
raises an uncaught exception mid-run (`RunResult.exn trace`, the events emitted
before the raising call), or loops forever in one of the two poll loops
(`RunResult.hung`, modelled by the oracle's finite poll stream running out
before the exit condition is observed).
-/

/-- Source line 21: processes suspended for the duration of the recycle. -/
def SUSPEND_PROCESSES : List String :=
  ["ReplaceUnhealthy", "AlarmNotification", "ScheduledActions", "AZRebalance"]

/-- Source line 22: poll interval in seconds. -/
def POLL_INTERVAL : Nat := 15

/-- Source lines 24-32: the process-wide configuration, parsed once at startup. -/
structure Config where
  ASG_NAME : String
  ECS_CLUSTER : String
  AWS_REGION : String
deriving DecidableEq, Repr

/-- The two ASG attributes the script reads (lines 85, 89). -/
structure Asg where
  DesiredCapacity : Nat
  MaxSize : Nat
deriving DecidableEq, Repr

/-- One remote AWS call as it appears in the run's trace, with the arguments
the script passes and (for reads) the response the environment returned. -/
inductive Event where
  /-- `autoscaling.suspend_processes` (lines 71-74). -/
  | suspendProcesses (asgName : String) (procs : List String)
  /-- `autoscaling.describe_auto_scaling_groups` via `get_asg` (lines 39-42, 77). -/
  | describeAsg (asgName : String)
  /-- `ecs.list_container_instances`, with the returned ARN list
  (lines 47, 80-82). -/
  | listInstances (cluster : String) (arns : List String)
  /-- `autoscaling.update_auto_scaling_group` (lines 62-66, 95-99). -/
  | updateAsg (asgName : String) (maxSize : Nat) (desiredCapacity : Nat)
  /-- `sleep` (lines 51, 109, 130, 133, 145). -/
  | sleep (seconds : Nat)
  /-- `ecs.update_container_instances_state(..., status='DRAINING')`
  (lines 112-118). -/
  | setDraining (cluster : String) (arn : String)
  /-- `ecs.describe_container_instances`, with the observed
  `runningTasksCount` and the reported `ec2InstanceId` (lines 122-127). -/
  | describeInstance (cluster : String) (arn : String)
      (runningTasksCount : Nat) (ec2InstanceId : String)
  /-- `autoscaling.terminate_instance_in_auto_scaling_group` (lines 140-143). -/
  | terminateInstance (instanceId : String) (shouldDecrementDesiredCapacity : Bool)
  /-- `autoscaling.resume_processes` (lines 56-59). -/
  | resumeProcesses (asgName : String) (procs : List String)
deriving DecidableEq, Repr

/-- Outcome of one of the script's internal blocking loops. -/
inductive StepRes where
  /-- The loop exited normally, emitting these events. -/
  | ok (evs : List Event)
  /-- A remote call inside the loop raised; these events were emitted first. -/
  | exn (evs : List Event)
  /-- The loop never exits (the oracle's poll stream ran out while the exit
  condition was still false: the script would poll forever). -/
  | hung
deriving DecidableEq, Repr

/-- Outcome of one whole invocation of `handler`. -/
inductive RunResult where
  | ok (trace : List Event)
  | exn (trace : List Event)
  | hung
deriving DecidableEq, Repr

/-- The oracle of remote responses for one run.  `capPolls i` are the
successive `list_container_instances` responses observed by
`wait_for_ecs_count` during loop iteration `i` (0-based); `drainPolls i` are
the successive `runningTasksCount` values observed by the drain-wait loop of
iteration `i`.  A `none` entry means that remote call raises.  `ec2Id arn` is
the `ec2InstanceId` the ECS service reports for container instance `arn`, and
`terminateRaises i` injects a fault into the terminate call of iteration `i`. -/
structure Env where
  asg : Asg
  preArns : List String
  capPolls : Nat → List (Option (List String))
  drainPolls : Nat → List (Option Nat)
  ec2Id : String → String
  terminateRaises : Nat → Bool

/-- Source lines 44-51: block until the cluster lists at least `wanted`
container instances, sleeping `POLL_INTERVAL` between polls. -/
def wait_for_ecs_count (cfg : Config) (wanted : Nat) :
    List (Option (List String)) → StepRes
  | [] => .hung
  | none :: _ => .exn []
  | some arns :: rest =>
    if wanted ≤ arns.length then
      .ok [.listInstances cfg.ECS_CLUSTER arns]
    else
      match wait_for_ecs_count cfg wanted rest with
      | .ok evs =>
          .ok (.listInstances cfg.ECS_CLUSTER arns :: .sleep POLL_INTERVAL :: evs)
      | .exn evs =>
          .exn (.listInstances cfg.ECS_CLUSTER arns :: .sleep POLL_INTERVAL :: evs)
      | .hung => .hung

/-- Source lines 120-130: the inline drain-wait loop (the spec's
`awaitDrainComplete`): repeatedly describe the container instance until the
observed `runningTasksCount` is 0, sleeping `POLL_INTERVAL` between polls. -/
def awaitDrainComplete (cfg : Config) (arn instId : String) :
    List (Option Nat) → StepRes
  | [] => .hung
  | none :: _ => .exn []
  | some n :: rest =>
    if n = 0 then
      .ok [.describeInstance cfg.ECS_CLUSTER arn 0 instId]
    else
      match awaitDrainComplete cfg arn instId rest with
      | .ok evs =>
          .ok (.describeInstance cfg.ECS_CLUSTER arn n instId ::
            .sleep POLL_INTERVAL :: evs)
      | .exn evs =>
          .exn (.describeInstance cfg.ECS_CLUSTER arn n instId ::
            .sleep POLL_INTERVAL :: evs)
      | .hung => .hung

/-- Source line 86: `new_desired_capacity = pre_desired_capacity + 1`. -/
def new_desired_capacity (pre_desired_capacity : Nat) : Nat :=
  pre_desired_capacity + 1

/-- Source lines 90-92: `new_max_size` starts as `pre_max_size` and is raised
to `new_desired_capacity` when that exceeds it. -/
def new_max_size (pre_max_size nd : Nat) : Nat :=
  if nd > pre_max_size then nd else pre_max_size

/-- Source lines 53-66: `cleanup` resumes the suspended processes and resets
the desired capacity and max size (events only; it cannot fail in our model). -/
def cleanup (asg_name : String) (desired_capacity max_size : Nat) : List Event :=
  [.resumeProcesses asg_name SUSPEND_PROCESSES,
   .updateAsg asg_name max_size desired_capacity]

/-- Source lines 101-145: the per-instance recycle loop.  `i` is the value of
the Python counter `i` at loop entry (it is incremented at the top of each
iteration, line 104, so the iteration handling the head of `arns` sees the
counter value `i + 1`). -/
def recycleLoop (cfg : Config) (env : Env) (nd pre_desired : Nat) :
    Nat → List String → StepRes
  | _, [] => .ok []
  | i, arn :: rest =>
    -- line 107: wait for a new instance to join the ECS cluster
    match wait_for_ecs_count cfg nd (env.capPolls i) with
    | .hung => .hung
    | .exn evs => .exn evs
    | .ok waitEvs =>
      -- line 109 sleep; lines 112-118 set the instance to DRAINING
      let preEvs := waitEvs ++
        [.sleep POLL_INTERVAL, .setDraining cfg.ECS_CLUSTER arn]
      -- lines 121-130: wait for the container instance to fully drain
      match awaitDrainComplete cfg arn (env.ec2Id arn) (env.drainPolls i) with
      | .hung => .hung
      | .exn evs => .exn (preEvs ++ evs)
      | .ok drainEvs =>
        -- line 133 sleep
        let evs1 := preEvs ++ drainEvs ++ [.sleep POLL_INTERVAL]
        -- lines 135-137: don't terminate the final "extra" instance
        if pre_desired ≤ i + 1 then
          .ok evs1
        else if env.terminateRaises i then
          .exn evs1
        else
          -- lines 140-145: terminate the instance, then sleep
          let evs2 := evs1 ++
            [.terminateInstance (env.ec2Id arn) false, .sleep POLL_INTERVAL]
          match recycleLoop cfg env nd pre_desired (i + 1) rest with
          | .hung => .hung
          | .exn evs => .exn (evs2 ++ evs)
          | .ok evs => .ok (evs2 ++ evs)

/-- Source lines 68-147: the Lambda entrypoint.  `event` and `context` are the
two parameters the source declares and never reads ("Both arguments are
ignored", line 68). -/
def handler {α β : Type} (event : α) (context : β) (cfg : Config) (env : Env) :
    RunResult :=
  let asg := env.asg
  let pre_desired_capacity := asg.DesiredCapacity
  let nd := new_desired_capacity pre_desired_capacity
  let pre_max_size := asg.MaxSize
  let nm := new_max_size pre_max_size nd
  let preEvs : List Event :=
    [.suspendProcesses cfg.ASG_NAME SUSPEND_PROCESSES,
     .describeAsg cfg.ASG_NAME,
     .listInstances cfg.ECS_CLUSTER env.preArns,
     .updateAsg cfg.ASG_NAME nm nd]
  match recycleLoop cfg env nd pre_desired_capacity 0 env.preArns with
  | .hung => .hung
  | .exn evs => .exn (preEvs ++ evs)
  | .ok evs =>
      .ok (preEvs ++ evs ++ cleanup cfg.ASG_NAME pre_desired_capacity pre_max_size)

/-- Source line 149: the script invokes `handler(False, False)`. -/
def run (cfg : Config) (env : Env) : RunResult :=
  handler false false cfg env

/-- The events a run emitted, whether it completed or raised. -/
def traceOf : RunResult → List Event
  | .ok t => t
  | .exn t => t
  | .hung => []

/-- The `(InstanceId, ShouldDecrementDesiredCapacity)` arguments of the
terminate calls in a trace, in order. -/
def terminations : List Event → List (String × Bool)
  | [] => []
  | .terminateInstance id dec :: rest => (id, dec) :: terminations rest
  | _ :: rest => terminations rest

/-- The ARNs set to DRAINING in a trace, in order. -/
def drainedArns : List Event → List String
  | [] => []
  | .setDraining _ arn :: rest => arn :: drainedArns rest
  | _ :: rest => drainedArns rest

/-- How many of a list of terminate-call argument pairs target the given
instance id. -/
def countTermPairs : List (String × Bool) → String → Nat
  | [], _ => 0
  | (id2, _) :: rest, id => (if id2 = id then 1 else 0) + countTermPairs rest id

/-- How many terminate calls in the trace target the given instance id. -/
def countTerm (t : List Event) (id : String) : Nat :=
  countTermPairs (terminations t) id

/-!
A fake cluster/group backend for the capacity invariant (spec §8, first
property).  The orchestrator's per-node loop (source lines 102-145) is run
against a cluster whose active-instance count only ever changes in two ways:
a freshly launched instance joins (the environment's move — the ASG launches
the spare because the desired capacity was raised), or the orchestrator
terminates an instance (line 140).  Marking an instance DRAINING does not
remove it from the cluster listing.  The program counter abstracts the loop:
`loopTop` is the top of an iteration (lines 103-107: counter increment and
`wait_for_ecs_count` polling; failed polls and sleeps leave the state
unchanged and are omitted as stutter steps), `draining` covers lines 109-133
(the successful capacity observation through the end of the drain wait), and
`finished` is reached when the loop exits (line 136 break, or the list of
original nodes is exhausted) and the cleanup restore runs. -/
inductive PC where
  | loopTop
  | draining
  | finished
deriving DecidableEq, Repr

/-- State of the fake backend run: `activeCount` is the number of container
instances the cluster currently lists, `remaining` how many original nodes are
not yet processed, `processed` the Python counter `i`. -/
structure Sys where
  pc : PC
  activeCount : Nat
  remaining : Nat
  processed : Nat
deriving DecidableEq, Repr

/-- One atomic step of the loop running against the fake backend, for a group
whose original desired capacity is `pre_desired` (so `wait_for_ecs_count` is
called with `wanted = pre_desired + 1`, source lines 86 and 107). -/
inductive ClusterStep (pre_desired : Nat) : Sys → Sys → Prop
  /-- A newly launched instance joins the cluster (environment move). -/
  | join (pc : PC) (c r i : Nat) :
      ClusterStep pre_desired ⟨pc, c, r, i⟩ ⟨pc, c + 1, r, i⟩
  /-- Lines 104-107: with an original node left, the counter increments and
  `wait_for_ecs_count(new_desired_capacity)` returns — which it does only when
  it observes at least `pre_desired + 1` active instances. -/
  | pollOk (c r i : Nat) (h : new_desired_capacity pre_desired ≤ c) :
      ClusterStep pre_desired ⟨.loopTop, c, r + 1, i⟩ ⟨.draining, c, r + 1, i + 1⟩
  /-- The `for` loop exhausts the original node list (line 103). -/
  | exitEmpty (c i : Nat) :
      ClusterStep pre_desired ⟨.loopTop, c, 0, i⟩ ⟨.finished, c, 0, i⟩
  /-- Lines 135-137: the final original node is drained but not terminated;
  the loop breaks. -/
  | breakLast (c r i : Nat) (h : pre_desired ≤ i) :
      ClusterStep pre_desired ⟨.draining, c, r + 1, i⟩ ⟨.finished, c, r, i⟩
  /-- Lines 140-143: the drained node's instance is terminated, leaving the
  cluster; the loop returns to its top. -/
  | term (c r i : Nat) (h : i < pre_desired) :
      ClusterStep pre_desired ⟨.draining, c, r + 1, i⟩ ⟨.loopTop, c - 1, r, i⟩

/-- The strengthened inductive invariant: while the loop is at its top the
cluster holds at least the original desired count of instances, and after a
successful capacity poll (while draining) at least one more. -/
def CapInv (pre_desired : Nat) (s : Sys) : Prop :=
  (s.pc = .loopTop → pre_desired ≤ s.activeCount) ∧
  (s.pc = .draining → pre_desired + 1 ≤ s.activeCount)

theorem capInv_step {d : Nat} {s s₂ : Sys} (hs : CapInv d s)
    (h : ClusterStep d s s₂) : CapInv d s₂ := by
  cases h with
  | join pc c r i =>
      rcases hs with ⟨h1, h2⟩
      exact ⟨fun hp => Nat.le_succ_of_le (h1 hp), fun hp => Nat.le_succ_of_le (h2 hp)⟩
  | pollOk c r i h =>
      exact ⟨(fun hp => nomatch hp), fun _ => h⟩
  | exitEmpty c i =>
      exact ⟨(fun hp => nomatch hp), fun hp => nomatch hp⟩
  | breakLast c r i h =>
      exact ⟨(fun hp => nomatch hp), fun hp => nomatch hp⟩
  | term c r i h =>
      rcases hs with ⟨h1, h2⟩
      exact ⟨fun _ => Nat.le_sub_one_of_lt (h2 rfl), fun hp => nomatch hp⟩

theorem capInv_steps {d : Nat} {s s₂ : Sys} (hs : CapInv d s)
    (h : Relation.ReflTransGen (ClusterStep d) s s₂) : CapInv d s₂ := by
  induction h with
  | refl => exact hs
  | tail _ hstep ih => exact capInv_step ih hstep

/-- C1: once the scale-up capacity update has been applied and until the
restore step, the active node count of the fake cluster backend never drops
below `originalDesiredCount`: in every state reachable from the top of the
per-node loop (started with at least `pre_desired` active instances and the
Python counter at 0) that has not yet reached the post-loop restore, the
active count is at least `pre_desired`.  Strictly-sequential processing makes
every terminate follow a poll that observed `pre_desired + 1` instances. -/
theorem c1_capacity_invariant (d c r : Nat) (s : Sys) (hc : d ≤ c)
    (hsteps : Relation.ReflTransGen (ClusterStep d) ⟨.loopTop, c, r, 0⟩ s)
    (hpc : s.pc ≠ .finished) : d ≤ s.activeCount := by
  have hstart : CapInv d ⟨.loopTop, c, r, 0⟩ := ⟨(fun _ => hc), fun hp => nomatch hp⟩
  have hinv := capInv_steps hstart hsteps
  cases hsp : s.pc with
  | loopTop => exact hinv.1 hsp
  | draining => exact Nat.le_of_succ_le (hinv.2 hsp)
  | finished => exact absurd hsp hpc

theorem c1_witness :
    1 ≤ 1 ∧ (Sys.mk .draining 2 2 1).pc ≠ .finished ∧
      1 ≤ (Sys.mk .draining 2 2 1).activeCount := by
  have hsteps : Relation.ReflTransGen (ClusterStep 1)
      ⟨.loopTop, 1, 2, 0⟩ ⟨.draining, 2, 2, 1⟩ :=
    (Relation.ReflTransGen.refl.tail (ClusterStep.join .loopTop 1 2 0)).tail
      (ClusterStep.pollOk 2 1 0 (by decide))
  exact ⟨Nat.le_refl 1, by decide,
    c1_capacity_invariant 1 1 2 ⟨.draining, 2, 2, 1⟩ (by decide) hsteps (by decide)⟩

/-! Helper lemmas about traces. -/

/-- The events a blocking loop emitted, whatever its outcome. -/
def StepRes.events : StepRes → List Event
  | .ok evs => evs
  | .exn evs => evs
  | .hung => []

theorem terminations_append (xs ys : List Event) :
    terminations (xs ++ ys) = terminations xs ++ terminations ys := by
  induction xs with
  | nil => rfl
  | cons e rest ih => cases e <;> simp [terminations, ih]

theorem drainedArns_append (xs ys : List Event) :
    drainedArns (xs ++ ys) = drainedArns xs ++ drainedArns ys := by
  induction xs with
  | nil => rfl
  | cons e rest ih => cases e <;> simp [drainedArns, ih]

theorem terminations_eq_nil {evs : List Event}
    (h : ∀ id dec, Event.terminateInstance id dec ∉ evs) :
    terminations evs = [] := by
  induction evs with
  | nil => rfl
  | cons e rest ih =>
    have hrest : ∀ id dec, Event.terminateInstance id dec ∉ rest :=
      fun id dec hm => h id dec (List.mem_cons_of_mem _ hm)
    cases e with
    | terminateInstance id dec => exact absurd (List.mem_cons_self _ _) (h id dec)
    | _ => simp [terminations, ih hrest]

theorem drainedArns_eq_nil {evs : List Event}
    (h : ∀ c a, Event.setDraining c a ∉ evs) : drainedArns evs = [] := by
  induction evs with
  | nil => rfl
  | cons e rest ih =>
    have hrest : ∀ c a, Event.setDraining c a ∉ rest :=
      fun c a hm => h c a (List.mem_cons_of_mem _ hm)
    cases e with
    | setDraining c a => exact absurd (List.mem_cons_self _ _) (h c a)
    | _ => simp [drainedArns, ih hrest]

theorem wait_events_shape (cfg : Config) (w : Nat)
    (ps : List (Option (List String))) :
    ∀ e ∈ (wait_for_ecs_count cfg w ps).events,
      (∃ l, e = Event.listInstances cfg.ECS_CLUSTER l) ∨
        e = Event.sleep POLL_INTERVAL := by
  induction ps with
  | nil => intro e he; exact absurd he (by simp [wait_for_ecs_count, StepRes.events])
  | cons p rest ih =>
    intro e he
    cases p with
    | none => exact absurd he (by simp [wait_for_ecs_count, StepRes.events])
    | some a =>
      by_cases hw : w ≤ a.length
      · simp [wait_for_ecs_count, hw, StepRes.events] at he
        exact Or.inl ⟨a, he⟩
      · simp only [wait_for_ecs_count, if_neg hw] at he
        cases hr : wait_for_ecs_count cfg w rest with
        | ok evs =>
          rw [hr] at he
          simp only [StepRes.events, List.mem_cons] at he
          rcases he with he | he | he
          · exact Or.inl ⟨a, he⟩
          · exact Or.inr he
          · exact ih e (by rw [hr]; exact he)
        | exn evs =>
          rw [hr] at he
          simp only [StepRes.events, List.mem_cons] at he
          rcases he with he | he | he
          · exact Or.inl ⟨a, he⟩
          · exact Or.inr he
          · exact ih e (by rw [hr]; exact he)
        | hung => rw [hr] at he; exact absurd he (by simp [StepRes.events])

theorem drain_events_shape (cfg : Config) (arn instId : String)
    (ps : List (Option Nat)) :
    ∀ e ∈ (awaitDrainComplete cfg arn instId ps).events,
      (∃ n, e = Event.describeInstance cfg.ECS_CLUSTER arn n instId) ∨
        e = Event.sleep POLL_INTERVAL := by
  induction ps with
  | nil => intro e he; exact absurd he (by simp [awaitDrainComplete, StepRes.events])
  | cons p rest ih =>
    intro e he
    cases p with
    | none => exact absurd he (by simp [awaitDrainComplete, StepRes.events])
    | some n =>
      by_cases hn : n = 0
      · simp [awaitDrainComplete, hn, StepRes.events] at he
        exact Or.inl ⟨0, he⟩
      · simp only [awaitDrainComplete, if_neg hn] at he
        cases hr : awaitDrainComplete cfg arn instId rest with
        | ok evs =>
          rw [hr] at he
          simp only [StepRes.events, List.mem_cons] at he
          rcases he with he | he | he
          · exact Or.inl ⟨n, he⟩
          · exact Or.inr he
          · exact ih e (by rw [hr]; exact he)
        | exn evs =>
          rw [hr] at he
          simp only [StepRes.events, List.mem_cons] at he
          rcases he with he | he | he
          · exact Or.inl ⟨n, he⟩
          · exact Or.inr he
          · exact ih e (by rw [hr]; exact he)
        | hung => rw [hr] at he; exact absurd he (by simp [StepRes.events])

theorem wait_terminations (cfg : Config) (w : Nat)
    (ps : List (Option (List String))) :
    terminations (wait_for_ecs_count cfg w ps).events = [] :=
  terminations_eq_nil (fun id dec hm => by
    rcases wait_events_shape cfg w ps _ hm with ⟨l, h⟩ | h <;> exact Event.noConfusion h)

theorem wait_drained (cfg : Config) (w : Nat) (ps : List (Option (List String))) :
    drainedArns (wait_for_ecs_count cfg w ps).events = [] :=
  drainedArns_eq_nil (fun c a hm => by
    rcases wait_events_shape cfg w ps _ hm with ⟨l, h⟩ | h <;> exact Event.noConfusion h)

theorem drain_terminations (cfg : Config) (arn instId : String)
    (ps : List (Option Nat)) :
    terminations (awaitDrainComplete cfg arn instId ps).events = [] :=
  terminations_eq_nil (fun id dec hm => by
    rcases drain_events_shape cfg arn instId ps _ hm with ⟨n, h⟩ | h <;>
      exact Event.noConfusion h)

theorem drain_drained (cfg : Config) (arn instId : String)
    (ps : List (Option Nat)) :
    drainedArns (awaitDrainComplete cfg arn instId ps).events = [] :=
  drainedArns_eq_nil (fun c a hm => by
    rcases drain_events_shape cfg arn instId ps _ hm with ⟨n, h⟩ | h <;>
      exact Event.noConfusion h)

/-- Inversion of one successful iteration of the recycle loop. -/
theorem recycleLoop_cons_ok (cfg : Config) (env : Env) (nd d i : Nat)
    (arn : String) (rest : List String) (evs : List Event)
    (h : recycleLoop cfg env nd d i (arn :: rest) = .ok evs) :
    ∃ wevs devs,
      wait_for_ecs_count cfg nd (env.capPolls i) = .ok wevs ∧
      awaitDrainComplete cfg arn (env.ec2Id arn) (env.drainPolls i) = .ok devs ∧
      ((d ≤ i + 1 ∧
          evs = wevs ++ [.sleep POLL_INTERVAL, .setDraining cfg.ECS_CLUSTER arn]
            ++ devs ++ [.sleep POLL_INTERVAL]) ∨
        (i + 1 < d ∧ env.terminateRaises i = false ∧
          ∃ revs, recycleLoop cfg env nd d (i + 1) rest = .ok revs ∧
            evs = (wevs ++ [.sleep POLL_INTERVAL, .setDraining cfg.ECS_CLUSTER arn]
              ++ devs ++ [.sleep POLL_INTERVAL]
              ++ [.terminateInstance (env.ec2Id arn) false, .sleep POLL_INTERVAL])
              ++ revs)) := by
  simp only [recycleLoop] at h
  cases hw : wait_for_ecs_count cfg nd (env.capPolls i) with
  | hung => rw [hw] at h; exact absurd h (by simp)
  | exn wevs => rw [hw] at h; exact absurd h (by simp)
  | ok wevs =>
    rw [hw] at h
    dsimp only at h
    cases hd : awaitDrainComplete cfg arn (env.ec2Id arn) (env.drainPolls i) with
    | hung => rw [hd] at h; exact absurd h (by simp)
    | exn devs => rw [hd] at h; exact absurd h (by simp)
    | ok devs =>
      rw [hd] at h
      dsimp only at h
      by_cases hbr : d ≤ i + 1
      · rw [if_pos hbr] at h
        injection h with h
        exact ⟨wevs, devs, rfl, rfl, Or.inl ⟨hbr, by subst h; simp⟩⟩
      · rw [if_neg hbr] at h
        cases ht : env.terminateRaises i with
        | true =>
          rw [ht, if_pos rfl] at h
          exact absurd h (by simp)
        | false =>
          rw [ht, if_neg Bool.false_ne_true] at h
          cases hr : recycleLoop cfg env nd d (i + 1) rest with
          | hung => rw [hr] at h; exact absurd h (by simp)
          | exn revs => rw [hr] at h; exact absurd h (by simp)
          | ok revs =>
            rw [hr] at h
            dsimp only at h
            injection h with h
            exact ⟨wevs, devs, rfl, rfl,
              Or.inr ⟨Nat.lt_of_not_le hbr, rfl, revs, rfl, by subst h; simp⟩⟩

/-- The terminate calls of a completed recycle loop are exactly the first
`pre_desired - 1 - i` remaining instances (with `ShouldDecrementDesiredCapacity`
false), in order. -/
theorem recycleLoop_ok_terminations (cfg : Config) (env : Env) (nd d : Nat) :
    ∀ (arns : List String) (i : Nat) (evs : List Event),
      recycleLoop cfg env nd d i arns = .ok evs →
      terminations evs =
        (arns.take (d - 1 - i)).map (fun a => (env.ec2Id a, false)) := by
  intro arns
  induction arns with
  | nil =>
    intro i evs h
    simp only [recycleLoop] at h
    injection h with h
    subst h
    simp [terminations]
  | cons arn rest ih =>
    intro i evs h
    rcases recycleLoop_cons_ok cfg env nd d i arn rest evs h with
      ⟨wevs, devs, hw, hd, hcase | hcase⟩
    · rcases hcase with ⟨hbr, hevs⟩
      subst hevs
      have h1 : terminations wevs = [] := by
        have hx := wait_terminations cfg nd (env.capPolls i)
        rw [hw] at hx; exact hx
      have h2 : terminations devs = [] := by
        have hx := drain_terminations cfg arn (env.ec2Id arn) (env.drainPolls i)
        rw [hd] at hx; exact hx
      have htake : d - 1 - i = 0 := by omega
      rw [htake]
      simp [terminations_append, h1, h2, terminations]
    · rcases hcase with ⟨hlt, ht, revs, hr, hevs⟩
      subst hevs
      have h1 : terminations wevs = [] := by
        have hx := wait_terminations cfg nd (env.capPolls i)
        rw [hw] at hx; exact hx
      have h2 : terminations devs = [] := by
        have hx := drain_terminations cfg arn (env.ec2Id arn) (env.drainPolls i)
        rw [hd] at hx; exact hx
      have h3 := ih (i + 1) revs hr
      have htake : d - 1 - i = (d - 1 - (i + 1)) + 1 := by omega
      rw [htake, List.take_succ_cons]
      simp [terminations_append, h1, h2, terminations, h3]

/-- The instances a completed recycle loop sets to DRAINING are exactly the
first `max (d - i) 1` remaining ones, in order. -/
theorem recycleLoop_ok_drained (cfg : Config) (env : Env) (nd d : Nat) :
    ∀ (arns : List String) (i : Nat) (evs : List Event),
      recycleLoop cfg env nd d i arns = .ok evs →
      drainedArns evs = arns.take (max (d - i) 1) := by
  intro arns
  induction arns with
  | nil =>
    intro i evs h
    simp only [recycleLoop] at h
    injection h with h
    subst h
    simp [drainedArns]
  | cons arn rest ih =>
    intro i evs h
    rcases recycleLoop_cons_ok cfg env nd d i arn rest evs h with
      ⟨wevs, devs, hw, hd, hcase | hcase⟩
    · rcases hcase with ⟨hbr, hevs⟩
      subst hevs
      have h1 : drainedArns wevs = [] := by
        have hx := wait_drained cfg nd (env.capPolls i)
        rw [hw] at hx; exact hx
      have h2 : drainedArns devs = [] := by
        have hx := drain_drained cfg arn (env.ec2Id arn) (env.drainPolls i)
        rw [hd] at hx; exact hx
      have htake : max (d - i) 1 = 1 := by omega
      rw [htake]
      simp [drainedArns_append, h1, h2, drainedArns]
    · rcases hcase with ⟨hlt, ht, revs, hr, hevs⟩
      subst hevs
      have h1 : drainedArns wevs = [] := by
        have hx := wait_drained cfg nd (env.capPolls i)
        rw [hw] at hx; exact hx
      have h2 : drainedArns devs = [] := by
        have hx := drain_drained cfg arn (env.ec2Id arn) (env.drainPolls i)
        rw [hd] at hx; exact hx
      have h3 := ih (i + 1) revs hr
      have htake : max (d - i) 1 = (max (d - (i + 1)) 1) + 1 := by omega
      rw [htake, List.take_succ_cons]
      simp [drainedArns_append, h1, h2, drainedArns, h3]

/-- The four events `handler` emits before entering the per-node loop. -/
def preLoopEvents (cfg : Config) (env : Env) : List Event :=
  [.suspendProcesses cfg.ASG_NAME SUSPEND_PROCESSES,
   .describeAsg cfg.ASG_NAME,
   .listInstances cfg.ECS_CLUSTER env.preArns,
   .updateAsg cfg.ASG_NAME
     (new_max_size env.asg.MaxSize (new_desired_capacity env.asg.DesiredCapacity))
     (new_desired_capacity env.asg.DesiredCapacity)]

/-- Inversion of a completed run. -/
theorem run_ok_inv (cfg : Config) (env : Env) (t : List Event)
    (h : run cfg env = .ok t) :
    ∃ levs,
      recycleLoop cfg env (new_desired_capacity env.asg.DesiredCapacity)
          env.asg.DesiredCapacity 0 env.preArns = .ok levs ∧
      t = preLoopEvents cfg env ++ levs ++
        cleanup cfg.ASG_NAME env.asg.DesiredCapacity env.asg.MaxSize := by
  unfold run handler at h
  dsimp only at h
  cases hr : recycleLoop cfg env (new_desired_capacity env.asg.DesiredCapacity)
      env.asg.DesiredCapacity 0 env.preArns with
  | hung => rw [hr] at h; exact absurd h (by simp)
  | exn levs => rw [hr] at h; exact absurd h (by simp)
  | ok levs =>
    rw [hr] at h
    dsimp only at h
    injection h with h
    exact ⟨levs, rfl, by rw [← h]; simp [preLoopEvents]⟩

/-- Inversion of a run aborted by a raised remote error. -/
theorem run_exn_inv (cfg : Config) (env : Env) (t : List Event)
    (h : run cfg env = .exn t) :
    ∃ levs,
      recycleLoop cfg env (new_desired_capacity env.asg.DesiredCapacity)
          env.asg.DesiredCapacity 0 env.preArns = .exn levs ∧
      t = preLoopEvents cfg env ++ levs := by
  unfold run handler at h
  dsimp only at h
  cases hr : recycleLoop cfg env (new_desired_capacity env.asg.DesiredCapacity)
      env.asg.DesiredCapacity 0 env.preArns with
  | hung => rw [hr] at h; exact absurd h (by simp)
  | ok levs => rw [hr] at h; dsimp only at h; exact absurd h (by simp)
  | exn levs =>
    rw [hr] at h
    dsimp only at h
    injection h with h
    exact ⟨levs, rfl, by rw [← h]; simp [preLoopEvents]⟩

/-- The kinds of event the per-node loop can emit: instance listings and
describes on the configured cluster, sleeps, DRAINING transitions of
snapshotted instances only, and terminations that never decrement desired
capacity. -/
def LoopEv (cfg : Config) (arns : List String) (e : Event) : Prop :=
  (∃ l, e = Event.listInstances cfg.ECS_CLUSTER l) ∨
  (∃ s, e = Event.sleep s) ∨
  (∃ a, a ∈ arns ∧ e = Event.setDraining cfg.ECS_CLUSTER a) ∨
  (∃ a n j, e = Event.describeInstance cfg.ECS_CLUSTER a n j) ∨
  (∃ id, e = Event.terminateInstance id false)

theorem loopEv_mono {cfg : Config} {arn : String} {rest : List String} {e : Event}
    (h : LoopEv cfg rest e) : LoopEv cfg (arn :: rest) e := by
  rcases h with h | h | ⟨a, ha, hae⟩ | h | h
  · exact Or.inl h
  · exact Or.inr (Or.inl h)
  · exact Or.inr (Or.inr (Or.inl ⟨a, List.mem_cons_of_mem _ ha, hae⟩))
  · exact Or.inr (Or.inr (Or.inr (Or.inl h)))
  · exact Or.inr (Or.inr (Or.inr (Or.inr h)))

theorem loopEv_of_wait {cfg : Config} {arns : List String} (w : Nat)
    (ps : List (Option (List String))) {e : Event}
    (he : e ∈ (wait_for_ecs_count cfg w ps).events) : LoopEv cfg arns e := by
  rcases wait_events_shape cfg w ps e he with ⟨l, h⟩ | h
  · exact Or.inl ⟨l, h⟩
  · exact Or.inr (Or.inl ⟨POLL_INTERVAL, h⟩)

theorem loopEv_of_drain {cfg : Config} {arns : List String} (arn instId : String)
    (ps : List (Option Nat)) {e : Event}
    (he : e ∈ (awaitDrainComplete cfg arn instId ps).events) : LoopEv cfg arns e := by
  rcases drain_events_shape cfg arn instId ps e he with ⟨n, h⟩ | h
  · exact Or.inr (Or.inr (Or.inr (Or.inl ⟨arn, n, instId, h⟩)))
  · exact Or.inr (Or.inl ⟨POLL_INTERVAL, h⟩)

theorem recycleLoop_events_shape (cfg : Config) (env : Env) (nd d : Nat) :
    ∀ (arns : List String) (i : Nat) (e : Event),
      e ∈ (recycleLoop cfg env nd d i arns).events → LoopEv cfg arns e := by
  intro arns
  induction arns with
  | nil => intro i e he; exact absurd he (by simp [recycleLoop, StepRes.events])
  | cons arn rest ih =>
    intro i e he
    have harn : arn ∈ arn :: rest := List.mem_cons_self _ _
    simp only [recycleLoop] at he
    cases hw : wait_for_ecs_count cfg nd (env.capPolls i) with
    | hung => rw [hw] at he; exact absurd he (by simp [StepRes.events])
    | exn wevs =>
      rw [hw] at he
      exact loopEv_of_wait nd (env.capPolls i) (by rw [hw]; exact he)
    | ok wevs =>
      rw [hw] at he
      dsimp only at he
      cases hd : awaitDrainComplete cfg arn (env.ec2Id arn) (env.drainPolls i) with
      | hung => rw [hd] at he; exact absurd he (by simp [StepRes.events])
      | exn devs =>
        rw [hd] at he
        dsimp only [StepRes.events] at he
        simp only [List.mem_append, List.mem_cons, List.not_mem_nil, or_false] at he
        rcases he with (he | he | he) | he
        · exact loopEv_of_wait nd (env.capPolls i) (by rw [hw]; exact he)
        · exact Or.inr (Or.inl ⟨POLL_INTERVAL, he⟩)
        · exact Or.inr (Or.inr (Or.inl ⟨arn, harn, he⟩))
        · exact loopEv_of_drain arn (env.ec2Id arn) (env.drainPolls i)
            (by rw [hd]; exact he)
      | ok devs =>
        rw [hd] at he
        dsimp only at he
        by_cases hbr : d ≤ i + 1
        · rw [if_pos hbr] at he
          dsimp only [StepRes.events] at he
          simp only [List.mem_append, List.mem_cons, List.not_mem_nil, or_false] at he
          rcases he with ((he | he | he) | he) | he
          · exact loopEv_of_wait nd (env.capPolls i) (by rw [hw]; exact he)
          · exact Or.inr (Or.inl ⟨POLL_INTERVAL, he⟩)
          · exact Or.inr (Or.inr (Or.inl ⟨arn, harn, he⟩))
          · exact loopEv_of_drain arn (env.ec2Id arn) (env.drainPolls i)
              (by rw [hd]; exact he)
          · exact Or.inr (Or.inl ⟨POLL_INTERVAL, he⟩)
        · rw [if_neg hbr] at he
          cases ht : env.terminateRaises i with
          | true =>
            rw [ht, if_pos rfl] at he
            dsimp only [StepRes.events] at he
            simp only [List.mem_append, List.mem_cons, List.not_mem_nil, or_false] at he
            rcases he with ((he | he | he) | he) | he
            · exact loopEv_of_wait nd (env.capPolls i) (by rw [hw]; exact he)
            · exact Or.inr (Or.inl ⟨POLL_INTERVAL, he⟩)
            · exact Or.inr (Or.inr (Or.inl ⟨arn, harn, he⟩))
            · exact loopEv_of_drain arn (env.ec2Id arn) (env.drainPolls i)
                (by rw [hd]; exact he)
            · exact Or.inr (Or.inl ⟨POLL_INTERVAL, he⟩)
          | false =>
            rw [ht, if_neg Bool.false_ne_true] at he
            cases hr : recycleLoop cfg env nd d (i + 1) rest with
            | hung => rw [hr] at he; exact absurd he (by simp [StepRes.events])
            | exn revs =>
              rw [hr] at he
              dsimp only [StepRes.events] at he
              simp only [List.mem_append, List.mem_cons, List.not_mem_nil,
                or_false] at he
              rcases he with ((((he | he | he) | he) | he) | he | he) | he
              · exact loopEv_of_wait nd (env.capPolls i) (by rw [hw]; exact he)
              · exact Or.inr (Or.inl ⟨POLL_INTERVAL, he⟩)
              · exact Or.inr (Or.inr (Or.inl ⟨arn, harn, he⟩))
              · exact loopEv_of_drain arn (env.ec2Id arn) (env.drainPolls i)
                  (by rw [hd]; exact he)
              · exact Or.inr (Or.inl ⟨POLL_INTERVAL, he⟩)
              · exact Or.inr (Or.inr (Or.inr (Or.inr ⟨env.ec2Id arn, he⟩)))
              · exact Or.inr (Or.inl ⟨POLL_INTERVAL, he⟩)
              · exact loopEv_mono (ih (i + 1) e (by rw [hr]; exact he))
            | ok revs =>
              rw [hr] at he
              dsimp only [StepRes.events] at he
              simp only [List.mem_append, List.mem_cons, List.not_mem_nil,
                or_false] at he
              rcases he with ((((he | he | he) | he) | he) | he | he) | he
              · exact loopEv_of_wait nd (env.capPolls i) (by rw [hw]; exact he)
              · exact Or.inr (Or.inl ⟨POLL_INTERVAL, he⟩)
              · exact Or.inr (Or.inr (Or.inl ⟨arn, harn, he⟩))
              · exact loopEv_of_drain arn (env.ec2Id arn) (env.drainPolls i)
                  (by rw [hd]; exact he)
              · exact Or.inr (Or.inl ⟨POLL_INTERVAL, he⟩)
              · exact Or.inr (Or.inr (Or.inr (Or.inr ⟨env.ec2Id arn, he⟩)))
              · exact Or.inr (Or.inl ⟨POLL_INTERVAL, he⟩)
              · exact loopEv_mono (ih (i + 1) e (by rw [hr]; exact he))

/-- Concrete configuration used by the witness runs. -/
def cfgW : Config := ⟨"my-asg", "my-cluster", "eu-west-1"⟩

/-- The spec's §8 scenario: desired 3, max 3, original nodes A, B, C; every
capacity wait immediately observes four instances and every drain completes
after observing 2 then 0 running tasks. -/
def envW3 : Env where
  asg := ⟨3, 3⟩
  preArns := ["A", "B", "C"]
  capPolls := fun _ => [some ["n1", "n2", "n3", "n4"]]
  drainPolls := fun _ => [some 2, some 0]
  ec2Id := fun a => String.append "i-" a
  terminateRaises := fun _ => false

/-- C4: every run that completes restores exactly the pre-run scaling
configuration: the trace opens by suspending `SUSPEND_PROCESSES` and its final
two events resume exactly those processes and set the capacity back to the
snapshotted `originalMaxCount` and `originalDesiredCount`; in particular the
restore is the last capacity update of the run. -/
theorem c4_restoration (cfg : Config) (env : Env) (t : List Event)
    (h : run cfg env = .ok t) :
    t.head? = some (.suspendProcesses cfg.ASG_NAME SUSPEND_PROCESSES) ∧
    ∃ pre, t = pre ++
      [.resumeProcesses cfg.ASG_NAME SUSPEND_PROCESSES,
       .updateAsg cfg.ASG_NAME env.asg.MaxSize env.asg.DesiredCapacity] := by
  rcases run_ok_inv cfg env t h with ⟨levs, hl, ht⟩
  subst ht
  constructor
  · simp [preLoopEvents]
  · exact ⟨preLoopEvents cfg env ++ levs, by simp [cleanup]⟩

theorem c4_witness :
    (traceOf (run cfgW envW3)).head? =
      some (.suspendProcesses cfgW.ASG_NAME SUSPEND_PROCESSES) ∧
    ∃ pre, traceOf (run cfgW envW3) = pre ++
      [.resumeProcesses cfgW.ASG_NAME SUSPEND_PROCESSES,
       .updateAsg cfgW.ASG_NAME envW3.asg.MaxSize envW3.asg.DesiredCapacity] :=
  c4_restoration cfgW envW3 (traceOf (run cfgW envW3)) rfl

/-- C9: the entry point ignores both of its parameters: two invocations with
any argument values, under the same configuration and the same remote-state
oracle, produce identical runs (hence identical remote-call sequences and
final state). -/
theorem c9_ignores_arguments {α₁ β₁ α₂ β₂ : Type} (cfg : Config) (env : Env)
    (e₁ : α₁) (c₁ : β₁) (e₂ : α₂) (c₂ : β₂) :
    handler e₁ c₁ cfg env = handler e₂ c₂ cfg env := rfl

/-- The drain-wait trace the spec describes: one describe per poll, a sleep
after each nonzero observation, stopping exactly at the first zero. -/
def drainSpecTrace (cfg : Config) (arn instId : String) : List Nat → List Event
  | [] => []
  | n :: rest =>
    if n = 0 then [.describeInstance cfg.ECS_CLUSTER arn 0 instId]
    else .describeInstance cfg.ECS_CLUSTER arn n instId ::
      .sleep POLL_INTERVAL :: drainSpecTrace cfg arn instId rest

/-- C7: on any fault-free stream of `runningTasksCount` observations, the
drain-wait loop returns exactly at the first zero observation (sleeping one
poll interval after each nonzero one) and, if no observation is ever
zero, polls forever — there is no timeout and no earlier return. -/
theorem c7_drain_wait (cfg : Config) (arn instId : String) (qs : List Nat) :
    awaitDrainComplete cfg arn instId (qs.map some) =
      if 0 ∈ qs then .ok (drainSpecTrace cfg arn instId qs) else .hung := by
  induction qs with
  | nil => simp [awaitDrainComplete]
  | cons n rest ih =>
    by_cases hn : n = 0
    · subst hn
      simp [awaitDrainComplete, drainSpecTrace]
    · rw [List.map_cons]
      rw [awaitDrainComplete]
      rw [if_neg hn, ih]
      by_cases hz : 0 ∈ rest
      · rw [if_pos hz, if_pos (List.mem_cons_of_mem _ hz)]
        rw [drainSpecTrace, if_neg hn]
      · rw [if_neg hz, if_neg ?_]
        intro hmem
        rcases List.mem_cons.mp hmem with hh | hh
        · exact hn hh.symm
        · exact hz hh

theorem mem_terminations {evs : List Event} {id : String} {dec : Bool}
    (h : Event.terminateInstance id dec ∈ evs) : (id, dec) ∈ terminations evs := by
  induction evs with
  | nil => cases h
  | cons e rest ih =>
    rcases List.mem_cons.mp h with he | hm
    · rw [← he]
      simp [terminations]
    · have hx := ih hm
      cases e <;> simp [terminations, hx]

/-- C2: a node whose 1-based position `p + 1` in the snapshot is at least
`originalDesiredCount` (the final, absorbing original node — and anything
after it) is never passed to the terminate call in a completed run: the loop
breaks after draining it, before the terminate statement.  The instance ids
reported for the snapshot are assumed pairwise distinct. -/
theorem c2_no_terminate_absorbing (cfg : Config) (env : Env) (t : List Event)
    (p : Nat) (arn : String) (dec : Bool)
    (h : run cfg env = .ok t)
    (hnd : (env.preArns.map env.ec2Id).Nodup)
    (hp : env.preArns[p]? = some arn)
    (habs : env.asg.DesiredCapacity ≤ p + 1) :
    Event.terminateInstance (env.ec2Id arn) dec ∉ t := by
  rcases run_ok_inv cfg env t h with ⟨levs, hl, ht⟩
  subst ht
  intro hmem
  simp only [List.mem_append] at hmem
  rcases hmem with (hmem | hmem) | hmem
  · simp [preLoopEvents] at hmem
  · have hterm := mem_terminations hmem
    rw [recycleLoop_ok_terminations cfg env _ _ env.preArns 0 levs hl] at hterm
    have hin : env.ec2Id arn ∈
        (env.preArns.map env.ec2Id).take (env.asg.DesiredCapacity - 1 - 0) := by
      rcases List.mem_map.mp hterm with ⟨a, ha, heq⟩
      have ha2 : env.ec2Id a = env.ec2Id arn := congrArg Prod.fst heq
      rw [← List.map_take]
      exact ha2 ▸ List.mem_map_of_mem _ ha
    have hgd : (env.preArns.map env.ec2Id)[p]? = some (env.ec2Id arn) := by
      rw [List.getElem?_map, hp]
      rfl
    have hdrop : env.ec2Id arn ∈
        (env.preArns.map env.ec2Id).drop (env.asg.DesiredCapacity - 1 - 0) := by
      have hk : env.asg.DesiredCapacity - 1 - 0 +
          (p - (env.asg.DesiredCapacity - 1 - 0)) = p := by omega
      have hq := List.getElem?_drop (env.preArns.map env.ec2Id)
        (env.asg.DesiredCapacity - 1 - 0) (p - (env.asg.DesiredCapacity - 1 - 0))
      rw [hk, hgd] at hq
      rcases List.getElem?_eq_some.mp hq with ⟨hlt, hg⟩
      exact hg ▸ List.getElem_mem hlt
    exact List.disjoint_take_drop hnd (Nat.le_refl _) hin hdrop
  · simp [cleanup] at hmem

theorem c2_witness :
    run cfgW envW3 = .ok (traceOf (run cfgW envW3)) ∧
    (envW3.preArns.map envW3.ec2Id).Nodup ∧
    envW3.preArns[2]? = some "C" ∧
    envW3.asg.DesiredCapacity ≤ 2 + 1 ∧
    Event.terminateInstance (envW3.ec2Id "C") false ∉ traceOf (run cfgW envW3) :=
  ⟨rfl, by decide, by decide, by decide,
    c2_no_terminate_absorbing cfgW envW3 (traceOf (run cfgW envW3)) 2 "C" false
      rfl (by decide) (by decide) (by decide)⟩

theorem countTermPairs_map_zero (f : String → String) (x : String) :
    ∀ (L : List String), x ∉ L.map f →
      countTermPairs (L.map (fun a => (f a, false))) x = 0
  | [], _ => rfl
  | a :: L', h => by
    simp only [List.map_cons, countTermPairs]
    have hne : ¬ f a = x := fun he =>
      h (he ▸ List.mem_map_of_mem f (List.mem_cons_self a L'))
    rw [if_neg hne, countTermPairs_map_zero f x L' (fun hm => h (by
      rw [List.map_cons]; exact List.mem_cons_of_mem _ hm))]

theorem countTermPairs_map_one (f : String → String) (arn : String) :
    ∀ (L : List String), (L.map f).Nodup → arn ∈ L →
      countTermPairs (L.map (fun a => (f a, false))) (f arn) = 1
  | [], _, hmem => absurd hmem (List.not_mem_nil _)
  | a :: L', hnd, hmem => by
    have hnd' : f a ∉ L'.map f ∧ (L'.map f).Nodup := by
      rw [List.map_cons, List.nodup_cons] at hnd
      exact hnd
    simp only [List.map_cons, countTermPairs]
    rcases List.mem_cons.mp hmem with rfl | hmem'
    · rw [if_pos rfl, countTermPairs_map_zero f (f arn) L' hnd'.1]
    · have hin : f arn ∈ L'.map f := List.mem_map_of_mem f hmem'
      have hne : ¬ f a = f arn := fun he => hnd'.1 (he ▸ hin)
      rw [if_neg hne, countTermPairs_map_one f arn L' hnd'.2 hmem']

/-- Counterexample environment for C3: desired 1, max 1, snapshot [A, B]; the
single capacity wait sees two instances and A drains immediately. -/
def envC3 : Env where
  asg := ⟨1, 1⟩
  preArns := ["A", "B"]
  capPolls := fun _ => [some ["n1", "n2"]]
  drainPolls := fun _ => [some 0]
  ec2Id := fun a => String.append "i-" a
  terminateRaises := fun _ => false

/-- C3 is false as stated: in this completed run only A is processed (drained)
— the last processed node is A — so B is a node of `originalNodeSet` other
than the last one processed, yet no terminate call for B's instance is ever
issued ("exactly once" fails at B). -/
theorem c3_counterexample :
    ¬ (∀ arn ∈ envC3.preArns,
        (drainedArns (traceOf (run cfgW envC3))).getLast? ≠ some arn →
        countTerm (traceOf (run cfgW envC3)) (envC3.ec2Id arn) = 1) := by
  decide

/-- C3 corrected: in a completed run, a snapshot node is passed to the
terminate call exactly once if its 1-based position is strictly below
`originalDesiredCount` (these are exactly the processed nodes other than the
last processed one whenever the snapshot holds at least `originalDesiredCount`
nodes), and every terminate call of the run passes
`ShouldDecrementDesiredCapacity = False`.  The original universal quantifier
over all of `originalNodeSet` fails when the snapshot is longer than
`originalDesiredCount`: nodes beyond the break position are never processed
nor terminated (`c3_counterexample`). -/
theorem c3_terminate_below_desired (cfg : Config) (env : Env) (t : List Event)
    (p : Nat) (arn : String)
    (h : run cfg env = .ok t)
    (hnd : (env.preArns.map env.ec2Id).Nodup)
    (hp : env.preArns[p]? = some arn)
    (hlt : p + 1 < env.asg.DesiredCapacity) :
    countTerm t (env.ec2Id arn) = 1 ∧
    (∀ id dec, Event.terminateInstance id dec ∈ t → dec = false) := by
  rcases run_ok_inv cfg env t h with ⟨levs, hl, ht⟩
  constructor
  · rw [ht]
    unfold countTerm
    rw [terminations_append, terminations_append]
    have h1 : terminations (preLoopEvents cfg env) = [] := rfl
    have h2 : terminations
        (cleanup cfg.ASG_NAME env.asg.DesiredCapacity env.asg.MaxSize) = [] := rfl
    rw [h1, h2, recycleLoop_ok_terminations cfg env _ _ env.preArns 0 levs hl]
    simp only [List.nil_append, List.append_nil]
    apply countTermPairs_map_one
    · rw [List.map_take]
      exact hnd.sublist (List.take_sublist _ _)
    · have hq : (env.preArns.take (env.asg.DesiredCapacity - 1 - 0))[p]? =
          some arn := by
        rw [List.getElem?_take, if_pos (by omega), hp]
      rcases List.getElem?_eq_some.mp hq with ⟨hl2, hg⟩
      exact hg ▸ List.getElem_mem hl2
  · intro id dec hmem
    rw [ht] at hmem
    simp only [List.mem_append] at hmem
    rcases hmem with (hmem | hmem) | hmem
    · simp [preLoopEvents] at hmem
    · have hsh := recycleLoop_events_shape cfg env _ _ env.preArns 0
        (Event.terminateInstance id dec) (by rw [hl]; exact hmem)
      rcases hsh with ⟨l, he⟩ | ⟨s2, he⟩ | ⟨a, _, he⟩ | ⟨a, n2, j, he⟩ | ⟨id2, he⟩
      · exact Event.noConfusion he
      · exact Event.noConfusion he
      · exact Event.noConfusion he
      · exact Event.noConfusion he
      · exact (Event.terminateInstance.inj he).2
    · simp [cleanup] at hmem

theorem c3_witness :
    run cfgW envW3 = .ok (traceOf (run cfgW envW3)) ∧
    (envW3.preArns.map envW3.ec2Id).Nodup ∧
    envW3.preArns[0]? = some "A" ∧
    0 + 1 < envW3.asg.DesiredCapacity ∧
    (countTerm (traceOf (run cfgW envW3)) (envW3.ec2Id "A") = 1 ∧
      (∀ id dec, Event.terminateInstance id dec ∈ traceOf (run cfgW envW3) →
        dec = false)) :=
  ⟨rfl, by decide, by decide, by decide,
    c3_terminate_below_desired cfgW envW3 (traceOf (run cfgW envW3)) 0 "A"
      rfl (by decide) (by decide) (by decide)⟩

theorem loopEv_no_resume {cfg : Config} {arns : List String} {name : String}
    {procs : List String}
    (h : LoopEv cfg arns (Event.resumeProcesses name procs)) : False := by
  rcases h with ⟨l, he⟩ | ⟨s, he⟩ | ⟨a, _, he⟩ | ⟨a, n, j, he⟩ | ⟨id, he⟩ <;>
    exact Event.noConfusion he

theorem loopEv_no_update {cfg : Config} {arns : List String} {name : String}
    {ms dc : Nat}
    (h : LoopEv cfg arns (Event.updateAsg name ms dc)) : False := by
  rcases h with ⟨l, he⟩ | ⟨s, he⟩ | ⟨a, _, he⟩ | ⟨a, n, j, he⟩ | ⟨id, he⟩ <;>
    exact Event.noConfusion he

/-- Fault-injection environment for C5: desired 1, snapshot [A, B]; the first
describe call of the drain wait raises. -/
def envC5 : Env where
  asg := ⟨1, 1⟩
  preArns := ["A", "B"]
  capPolls := fun _ => [some ["n1", "n2"]]
  drainPolls := fun _ => [none]
  ec2Id := fun a => String.append "i-" a
  terminateRaises := fun _ => false

/-- C5 is false as stated: this run is interrupted by a raised error from a
remote call (the first drain-wait describe raises), and the run exits without
ever resuming the suspended processes or restoring the original capacity —
the cleanup step does not run on this exit path (the source has no
try/finally around the per-node loop). -/
theorem c5_counterexample :
    run cfgW envC5 = .exn (traceOf (run cfgW envC5)) ∧
    Event.resumeProcesses cfgW.ASG_NAME SUSPEND_PROCESSES ∉
      traceOf (run cfgW envC5) ∧
    Event.updateAsg cfgW.ASG_NAME envC5.asg.MaxSize envC5.asg.DesiredCapacity ∉
      traceOf (run cfgW envC5) :=
  ⟨rfl, by decide, by decide⟩

/-- C5 corrected: the cleanup/restore step runs on every run that completes
the per-node loop normally (the resume and the restoring capacity update are
in every completed trace), but not on error exits: a run aborted by a raised
remote error never resumes the suspended behaviors — the source calls
`cleanup` only after the loop, with no try/finally. -/
theorem c5_cleanup_paths (cfg : Config) (env : Env) (t : List Event) :
    (run cfg env = .ok t →
      Event.resumeProcesses cfg.ASG_NAME SUSPEND_PROCESSES ∈ t ∧
      Event.updateAsg cfg.ASG_NAME env.asg.MaxSize env.asg.DesiredCapacity ∈ t) ∧
    (run cfg env = .exn t →
      ∀ name procs, Event.resumeProcesses name procs ∉ t) := by
  constructor
  · intro h
    rcases run_ok_inv cfg env t h with ⟨levs, hl, ht⟩
    subst ht
    constructor
    · simp [cleanup, List.mem_append]
    · simp [cleanup, List.mem_append]
  · intro h name procs hmem
    rcases run_exn_inv cfg env t h with ⟨levs, hl, ht⟩
    subst ht
    simp only [List.mem_append] at hmem
    rcases hmem with hmem | hmem
    · simp [preLoopEvents] at hmem
    · exact loopEv_no_resume (recycleLoop_events_shape cfg env _ _ env.preArns 0 _
        (by rw [hl]; exact hmem))

theorem c5_witness :
    (Event.resumeProcesses cfgW.ASG_NAME SUSPEND_PROCESSES ∈
        traceOf (run cfgW envW3) ∧
      Event.updateAsg cfgW.ASG_NAME envW3.asg.MaxSize envW3.asg.DesiredCapacity ∈
        traceOf (run cfgW envW3)) ∧
    (∀ name procs, Event.resumeProcesses name procs ∉ traceOf (run cfgW envC5)) :=
  ⟨(c5_cleanup_paths cfgW envW3 (traceOf (run cfgW envW3))).1 rfl,
   (c5_cleanup_paths cfgW envC5 (traceOf (run cfgW envC5))).2 rfl⟩

/-- C6: the scale-up arithmetic is exactly as specified — the target desired
count is `originalDesiredCount + 1`, the target max is
`max originalMaxCount (originalDesiredCount + 1)` (so the max grows by exactly
one when `originalDesiredCount = originalMaxCount` and is unchanged when
`originalDesiredCount < originalMaxCount`) — and, provided the snapshotted
settings satisfied `desired ≤ max`, every capacity update of a completed run
(the scale-up and the restore) satisfies `desiredCount ≤ maxCount`. -/
theorem c6_scaleup_arithmetic (cfg : Config) (env : Env) (t : List Event)
    (hdm : env.asg.DesiredCapacity ≤ env.asg.MaxSize)
    (h : run cfg env = .ok t) :
    new_desired_capacity env.asg.DesiredCapacity = env.asg.DesiredCapacity + 1 ∧
    new_max_size env.asg.MaxSize (new_desired_capacity env.asg.DesiredCapacity) =
      max env.asg.MaxSize (env.asg.DesiredCapacity + 1) ∧
    (env.asg.DesiredCapacity = env.asg.MaxSize →
      new_max_size env.asg.MaxSize (new_desired_capacity env.asg.DesiredCapacity) =
        env.asg.MaxSize + 1) ∧
    (env.asg.DesiredCapacity < env.asg.MaxSize →
      new_max_size env.asg.MaxSize (new_desired_capacity env.asg.DesiredCapacity) =
        env.asg.MaxSize) ∧
    (∀ name ms dc, Event.updateAsg name ms dc ∈ t → dc ≤ ms) := by
  refine ⟨rfl, ?_, ?_, ?_, ?_⟩
  · unfold new_max_size new_desired_capacity
    split <;> omega
  · intro he
    unfold new_max_size new_desired_capacity
    split <;> omega
  · intro he
    unfold new_max_size new_desired_capacity
    split <;> omega
  · intro name ms dc hmem
    rcases run_ok_inv cfg env t h with ⟨levs, hl, ht⟩
    subst ht
    simp only [List.mem_append] at hmem
    rcases hmem with (hmem | hmem) | hmem
    · simp only [preLoopEvents, List.mem_cons, List.not_mem_nil, or_false] at hmem
      rcases hmem with he | he | he | he
      · exact Event.noConfusion he
      · exact Event.noConfusion he
      · exact Event.noConfusion he
      · obtain ⟨h1, h2, h3⟩ := Event.updateAsg.inj he
        subst h2
        subst h3
        unfold new_max_size new_desired_capacity
        split <;> omega
    · exact (loopEv_no_update (recycleLoop_events_shape cfg env _ _ env.preArns 0 _
        (by rw [hl]; exact hmem))).elim
    · simp only [cleanup, List.mem_cons, List.not_mem_nil, or_false] at hmem
      rcases hmem with he | he
      · exact Event.noConfusion he
      · obtain ⟨h1, h2, h3⟩ := Event.updateAsg.inj he
        subst h2
        subst h3
        exact hdm

theorem c6_witness :
    envW3.asg.DesiredCapacity ≤ envW3.asg.MaxSize ∧
    (new_desired_capacity envW3.asg.DesiredCapacity =
        envW3.asg.DesiredCapacity + 1 ∧
      new_max_size envW3.asg.MaxSize
          (new_desired_capacity envW3.asg.DesiredCapacity) =
        max envW3.asg.MaxSize (envW3.asg.DesiredCapacity + 1) ∧
      (envW3.asg.DesiredCapacity = envW3.asg.MaxSize →
        new_max_size envW3.asg.MaxSize
            (new_desired_capacity envW3.asg.DesiredCapacity) =
          envW3.asg.MaxSize + 1) ∧
      (envW3.asg.DesiredCapacity < envW3.asg.MaxSize →
        new_max_size envW3.asg.MaxSize
            (new_desired_capacity envW3.asg.DesiredCapacity) =
          envW3.asg.MaxSize) ∧
      (∀ name ms dc, Event.updateAsg name ms dc ∈ traceOf (run cfgW envW3) →
        dc ≤ ms)) :=
  ⟨by decide,
    c6_scaleup_arithmetic cfgW envW3 (traceOf (run cfgW envW3)) (by decide) rfl⟩

/-- C8: in every run, completed or aborted, the snapshot of the original node
set is taken exactly once, after reading the group settings and before the
scale-up capacity update — the trace necessarily opens with suspend,
describe-ASG, the single snapshot listing, then the scale-up update — and the
loop only ever sets members of that snapshot to DRAINING, so nodes that join
the cluster after the snapshot are never drained by the run. -/
theorem c8_snapshot_before_scaleup (cfg : Config) (env : Env) (t : List Event)
    (h : run cfg env = .ok t ∨ run cfg env = .exn t) :
    t.take 4 =
      [.suspendProcesses cfg.ASG_NAME SUSPEND_PROCESSES,
       .describeAsg cfg.ASG_NAME,
       .listInstances cfg.ECS_CLUSTER env.preArns,
       .updateAsg cfg.ASG_NAME
         (new_max_size env.asg.MaxSize (new_desired_capacity env.asg.DesiredCapacity))
         (new_desired_capacity env.asg.DesiredCapacity)] ∧
    (∀ a, Event.setDraining cfg.ECS_CLUSTER a ∈ t → a ∈ env.preArns) := by
  rcases h with h | h
  · rcases run_ok_inv cfg env t h with ⟨levs, hl, ht⟩
    subst ht
    constructor
    · rw [List.append_assoc]
      exact List.take_left' rfl
    · intro a hmem
      simp only [List.mem_append] at hmem
      rcases hmem with (hmem | hmem) | hmem
      · simp [preLoopEvents] at hmem
      · have hsh := recycleLoop_events_shape cfg env _ _ env.preArns 0
          (Event.setDraining cfg.ECS_CLUSTER a) (by rw [hl]; exact hmem)
        rcases hsh with ⟨l, he⟩ | ⟨s, he⟩ | ⟨a2, ha2, he⟩ | ⟨a2, n, j, he⟩ | ⟨id, he⟩
        · exact Event.noConfusion he
        · exact Event.noConfusion he
        · rw [(Event.setDraining.inj he).2]
          exact ha2
        · exact Event.noConfusion he
        · exact Event.noConfusion he
      · simp [cleanup] at hmem
  · rcases run_exn_inv cfg env t h with ⟨levs, hl, ht⟩
    subst ht
    constructor
    · exact List.take_left' rfl
    · intro a hmem
      simp only [List.mem_append] at hmem
      rcases hmem with hmem | hmem
      · simp [preLoopEvents] at hmem
      · have hsh := recycleLoop_events_shape cfg env _ _ env.preArns 0
          (Event.setDraining cfg.ECS_CLUSTER a) (by rw [hl]; exact hmem)
        rcases hsh with ⟨l, he⟩ | ⟨s, he⟩ | ⟨a2, ha2, he⟩ | ⟨a2, n, j, he⟩ | ⟨id, he⟩
        · exact Event.noConfusion he
        · exact Event.noConfusion he
        · rw [(Event.setDraining.inj he).2]
          exact ha2
        · exact Event.noConfusion he
        · exact Event.noConfusion he

theorem c8_witness :
    (traceOf (run cfgW envW3)).take 4 =
      [.suspendProcesses cfgW.ASG_NAME SUSPEND_PROCESSES,
       .describeAsg cfgW.ASG_NAME,
       .listInstances cfgW.ECS_CLUSTER envW3.preArns,
       .updateAsg cfgW.ASG_NAME
         (new_max_size envW3.asg.MaxSize
           (new_desired_capacity envW3.asg.DesiredCapacity))
         (new_desired_capacity envW3.asg.DesiredCapacity)] ∧
    (∀ a, Event.setDraining cfgW.ECS_CLUSTER a ∈ traceOf (run cfgW envW3) →
      a ∈ envW3.preArns) :=
  c8_snapshot_before_scaleup cfgW envW3 (traceOf (run cfgW envW3)) (Or.inl rfl)

/-- C10: in every completed run, the number of terminate calls is
`min |originalNodeSet| (originalDesiredCount - 1)` (truncated subtraction, so
0 when the desired count is 0); when `originalDesiredCount = 0` and the
snapshot is nonempty, exactly the first snapshotted node is drained and no
instance is terminated; and when the snapshot is shorter than
`originalDesiredCount`, every snapshotted node — the last included — is
terminated. -/
theorem c10_termination_count (cfg : Config) (env : Env) (t : List Event)
    (h : run cfg env = .ok t) :
    (terminations t).length =
      min env.preArns.length (env.asg.DesiredCapacity - 1) ∧
    (∀ arn rest, env.asg.DesiredCapacity = 0 → env.preArns = arn :: rest →
      drainedArns t = [arn] ∧ terminations t = []) ∧
    (env.preArns.length < env.asg.DesiredCapacity →
      terminations t = env.preArns.map (fun a => (env.ec2Id a, false))) := by
  rcases run_ok_inv cfg env t h with ⟨levs, hl, ht⟩
  have h1 : terminations (preLoopEvents cfg env) = [] := rfl
  have h2 : terminations
      (cleanup cfg.ASG_NAME env.asg.DesiredCapacity env.asg.MaxSize) = [] := rfl
  have h3 : drainedArns (preLoopEvents cfg env) = [] := rfl
  have h4 : drainedArns
      (cleanup cfg.ASG_NAME env.asg.DesiredCapacity env.asg.MaxSize) = [] := rfl
  have hterm : terminations t =
      (env.preArns.take (env.asg.DesiredCapacity - 1 - 0)).map
        (fun a => (env.ec2Id a, false)) := by
    rw [ht, terminations_append, terminations_append, h1, h2,
      recycleLoop_ok_terminations cfg env _ _ env.preArns 0 levs hl]
    simp
  have hdr : drainedArns t =
      env.preArns.take (max (env.asg.DesiredCapacity - 0) 1) := by
    rw [ht, drainedArns_append, drainedArns_append, h3, h4,
      recycleLoop_ok_drained cfg env _ _ env.preArns 0 levs hl]
    simp
  refine ⟨?_, ?_, ?_⟩
  · rw [hterm, List.length_map, List.length_take]
    omega
  · intro arn rest hd0 hpre
    constructor
    · rw [hdr, hpre, hd0]
      simp
    · rw [hterm, hd0]
      simp
  · intro hlen
    rw [hterm]
    congr 1
    exact List.take_of_length_le (by omega)

theorem c10_witness :
    run cfgW envW3 = .ok (traceOf (run cfgW envW3)) ∧
    ((terminations (traceOf (run cfgW envW3))).length =
        min envW3.preArns.length (envW3.asg.DesiredCapacity - 1) ∧
      (∀ arn rest, envW3.asg.DesiredCapacity = 0 →
        envW3.preArns = arn :: rest →
        drainedArns (traceOf (run cfgW envW3)) = [arn] ∧
          terminations (traceOf (run cfgW envW3)) = []) ∧
      (envW3.preArns.length < envW3.asg.DesiredCapacity →
        terminations (traceOf (run cfgW envW3)) =
          envW3.preArns.map (fun a => (envW3.ec2Id a, false)))) :=
  ⟨rfl, c10_termination_count cfgW envW3 (traceOf (run cfgW envW3)) rfl⟩
